import Mathlib

/-!
Verification development for the `mastodon-cross-post` program.

The program cross-posts archived tweets (read from a TOML file) to a
Mastodon account without creating duplicates.  The Lean definitions below
are a shallow embedding of the program's pure core: the content
transformers (`tweetToTootV1`, `tweetToTootV2`), the status normalizer
(`tootToTweet`), the fuzzy matcher (`findMatchingStatus`) and the pure
planning core of `syncTwitter` (candidate selection, boundary detection,
oldest-first capped publishing).  Strings are modelled as Lean `String`s
(sequences of unicode scalar values, matching Go's rune-level semantics of
the operations used), and Go's 64-bit integers as `Int` (no arithmetic is
performed on them, only comparisons).  Go slices that the source compares
against `nil` are modelled as `Option (List _)` so that the nil/empty
distinction of the source is preserved.
-/

set_option autoImplicit false

set_option maxRecDepth 8192

/-! ### Go `strings.Replace(s, old, new, -1)` -/

/-- Fuel-indexed core of Go `strings.Replace` with `n = -1` (replace all,
leftmost, non-overlapping, scanning left to right; replaced text is not
rescanned).  The fuel argument makes the recursion structural so that the
kernel can evaluate it; `replaceCore` instantiates the fuel with the length
of the input, which is always sufficient. -/
def replaceGo (old new : List Char) : Nat → List Char → List Char
  | _, [] => []
  | 0, l => l
  | fuel + 1, c :: rest =>
    if old.isPrefixOf (c :: rest) then
      new ++ replaceGo old new fuel (rest.drop (old.length - 1))
    else
      c :: replaceGo old new fuel rest

/-- Replace every non-overlapping occurrence of the non-empty pattern `old`
by `new`, scanning left to right (Go `strings.Replace` with `n = -1`). -/
def replaceCore (old new : List Char) (l : List Char) : List Char :=
  replaceGo old new l.length l

/-- Go `strings.Replace(s, "", new, -1)` inserts `new` before the string
and after every rune. -/
def interleaveAfterEach (new : List Char) : List Char → List Char
  | [] => []
  | c :: rest => c :: (new ++ interleaveAfterEach new rest)

/-- Go `strings.HasSuffix(s, suffix)`, at rune level. -/
def goHasSuffix (s suffix : String) : Bool :=
  suffix.toList.reverse.isPrefixOf s.toList.reverse

/-- Go `strings.Replace(s, old, new, -1)`. -/
def goReplace (s old new : String) : String :=
  if old.toList.isEmpty then
    String.mk (new.toList ++ interleaveAfterEach new.toList s.toList)
  else
    String.mk (replaceCore old.toList new.toList s.toList)

/-! ### Levenshtein distance (github.com/agnivade/levenshtein)

Standard unit-cost edit distance over runes, computed by dynamic
programming one row at a time. -/

/-- Produce the tail of the next DP row: walks the remaining characters of
`bs` together with the previous row (`p0` is the entry above-left, `p1` the
entry above) carrying the entry to the left (`curr`). -/
def levAux (c : Char) : List Char → List Nat → Nat → List Nat
  | b :: bs, p0 :: p1 :: ps, curr =>
    (Nat.min (Nat.min (curr + 1) (p1 + 1)) (p0 + (if c = b then 0 else 1))) ::
      levAux c bs (p1 :: ps) (Nat.min (Nat.min (curr + 1) (p1 + 1)) (p0 + (if c = b then 0 else 1)))
  | _, _, _ => []

/-- Next DP row for character `c` given the previous row `prev`. -/
def levRow (bs : List Char) (prev : List Nat) (c : Char) : List Nat :=
  (prev.headD 0 + 1) :: levAux c bs prev (prev.headD 0 + 1)

/-- Unit-cost Levenshtein distance between two rune lists. -/
def levDistanceL (as bs : List Char) : Nat :=
  (as.foldl (levRow bs) (List.range (bs.length + 1))).getLastD 0

/-- Unit-cost Levenshtein distance between two strings, as computed by
`levenshtein.ComputeDistance`. -/
def levDistance (a b : String) : Nat :=
  levDistanceL a.toList b.toList

/-! ### The trailing t.co shortlink pattern

The source removes the regexp match of `` ` https://t\.co/\w{5,}$` `` via
`ReplaceAllString(content, "")`.  Because the pattern is anchored at the
end of the string and `\w` (ASCII word characters) excludes `/` and `:`,
the pattern can match at most once: the `\w{5,}` part must be exactly the
maximal word-character suffix of the string (the character before it is
`/`, not a word character), preceded immediately by the literal
`" https://t.co/"`.  The function below implements exactly that. -/

/-- Go regexp `\w`: ASCII letters, digits and underscore. -/
def isWordChar (c : Char) : Bool :=
  c.isAlphanum || c == '_'

/-- The literal part of the shortlink pattern, `" https://t.co/"`. -/
def tcoMarker : List Char :=
  [' ', 'h', 't', 't', 'p', 's', ':', '/', '/', 't', '.', 'c', 'o', '/']

/-- Remove a trailing ``" https://t.co/\w{5,}"`` shortlink (the effect of
`endTcoShortLinkRE.ReplaceAllString(content, "")` in the source); returns
the input unchanged when the pattern does not match. -/
def endTcoShortLinkStrip (s : String) : String :=
  let rcs := s.toList.reverse
  let w := rcs.takeWhile isWordChar
  let rest := rcs.dropWhile isWordChar
  if 5 ≤ w.length ∧ tcoMarker.reverse.isPrefixOf rest then
    String.mk ((rest.drop tcoMarker.length).reverse)
  else
    s

/-! ### Modelled external text functions

`tootToTweet` in the source calls two external library functions whose
code is not part of this repository: `strip.StripTags`
(github.com/grokify/html-strip-tags-go) and `html.UnescapeString`.
Mastodon's server-side rewriting of posted text (`render` below) is
likewise external.  These three are modelled from the spec. -/

/-- Modelled from the spec: `strip.StripTags` is not part of this
repository; the spec says "strip all remaining markup tags, leaving only
their text content" and "on malformed markup, strip best-effort and never
fail".  The Boolean state records whether the scanner is inside a tag. -/
def stripAux : Bool → List Char → List Char
  | _, [] => []
  | true, c :: rest => if c = '>' then stripAux false rest else stripAux true rest
  | false, c :: rest => if c = '<' then stripAux true rest else c :: stripAux false rest

/-- Tag stripping on strings. -/
def stripTagsStr (s : String) : String :=
  String.mk (stripAux false s.toList)

/-- Modelled from the spec: `html.UnescapeString` is not part of this
repository; the spec says "decode HTML/XML character entities (e.g.
`&amp;`, `&#39;`) to literal characters".  The model decodes the five
standard entities produced by HTML escaping; unrecognized ampersands are
kept verbatim. -/
def entityStep : List Char → Option (Char × Nat)
  | 'a' :: 'm' :: 'p' :: ';' :: _ => some ('&', 4)
  | 'l' :: 't' :: ';' :: _ => some ('<', 3)
  | 'g' :: 't' :: ';' :: _ => some ('>', 3)
  | 'q' :: 'u' :: 'o' :: 't' :: ';' :: _ => some ('"', 5)
  | '#' :: '3' :: '9' :: ';' :: _ => some (Char.ofNat 39, 4)
  | _ => none

/-- Fuel-indexed entity decoding; `unescapeL` instantiates the fuel with
the length of the input, which is always sufficient. -/
def unescGo : Nat → List Char → List Char
  | _, [] => []
  | 0, l => l
  | fuel + 1, c :: rest =>
    if c = '&' then
      match entityStep rest with
      | some (d, k) => d :: unescGo fuel (rest.drop k)
      | none => c :: unescGo fuel rest
    else c :: unescGo fuel rest

/-- Entity decoding over a rune list: decode the entity after each
ampersand (when recognized), keep every other character. -/
def unescapeL (l : List Char) : List Char :=
  unescGo l.length l

/-- Entity decoding on strings. -/
def unescapeStr (s : String) : String :=
  String.mk (unescapeL s.toList)

/-- Modelled from the spec: HTML escaping performed by the destination
platform (not part of this repository) — `&`, `<`, `>`, `"` and the
apostrophe become character entities. -/
def escapeChar (c : Char) : List Char :=
  if c = '&' then ['&', 'a', 'm', 'p', ';']
  else if c = '<' then ['&', 'l', 't', ';']
  else if c = '>' then ['&', 'g', 't', ';']
  else if c = '"' then ['&', 'q', 'u', 'o', 't', ';']
  else if c = Char.ofNat 39 then ['&', '#', '3', '9', ';']
  else [c]

/-- HTML escaping over a rune list. -/
def escapeL : List Char → List Char
  | [] => []
  | c :: rest => escapeChar c ++ escapeL rest

/-- The paragraph-boundary marker `"</p><p>"` as a rune list. -/
def pTagL : List Char :=
  ['<', '/', 'p', '>', '<', 'p', '>']

/-- Two newlines as a rune list. -/
def nnL : List Char :=
  ['\n', '\n']

/-- Modelled from the spec: the destination platform's rewriting of
submitted text ("the destination platform silently rewrites submitted text
(HTML-escaping, paragraph markup)"): HTML-escape the text, turn every
blank line (two newlines) into a paragraph boundary `</p><p>`, and wrap
the whole in `<p>…</p>`. -/
def render (s : String) : String :=
  String.mk (['<', 'p', '>'] ++ replaceCore nnL pTagL (escapeL s.toList) ++ ['<', '/', 'p', '>'])

/-! ### Data model (types from the source) -/

/-- `TweetEntitiesMedia`: an image or video stored in a tweet. -/
structure TweetEntitiesMedia where
  id : Int
  type : String
  url : String
deriving DecidableEq

/-- `TweetEntitiesURL`: a URL referenced in a tweet. -/
structure TweetEntitiesURL where
  displayURL : String
  expandedURL : String
  url : String
deriving DecidableEq

/-- `TweetEntitiesUserMention`: another user being mentioned in a tweet. -/
structure TweetEntitiesUserMention where
  user : String
  userID : Int
deriving DecidableEq

/-- `TweetEntities`: multimedia entries contained in a tweet.  Each slice
field may be nil (`none`) or present (`some`, possibly empty), matching
the Go slices which the source compares against `nil`. -/
structure TweetEntities where
  medias : Option (List TweetEntitiesMedia)
  urls : Option (List TweetEntitiesURL)
  userMentions : Option (List TweetEntitiesUserMention)
deriving DecidableEq

/-- `TweetReply`: reply information, populated when a tweet is a reply. -/
structure TweetReply where
  statusID : Int
  user : String
  userID : Int
deriving DecidableEq

/-- `TweetRetweet`: retweet information, populated when a tweet is a
retweet. -/
structure TweetRetweet where
  statusID : Int
  user : String
  userID : Int
deriving DecidableEq

/-- `Tweet`: a single archived tweet.  `createdAt` stands in for the
`time.Time` field (never interpreted by the functions modelled here). -/
structure Tweet where
  createdAt : Int
  entities : Option TweetEntities
  favoriteCount : Int
  id : Int
  reply : Option TweetReply
  retweet : Option TweetRetweet
  retweetCount : Int
  text : String
deriving DecidableEq

/-- The fields of `mastodon.Status` the program reads: the status id and
its rendered content. -/
structure Status where
  id : String
  content : String
deriving DecidableEq

/-- The fields of `mastodon.Toot` the program fills in when posting: the
attached media ids and the status text. -/
structure Toot where
  mediaIDs : List String
  status : String
deriving DecidableEq

/-! ### The program's pure core (translated from the source) -/

/-- `levenshteinDistanceTolerance`: maximum tolerance for when a Mastodon
status and tweet will be considered the same. -/
def levenshteinDistanceTolerance : Nat := 10

/-- `tootToTweet`: undo Mastodon's content rewriting — replace every
`"</p><p>"` with two newlines, strip the remaining tags, decode character
entities. -/
def tootToTweet (status : Status) : String :=
  unescapeStr (stripTagsStr (goReplace status.content "</p><p>" "\n\n"))

/-- `tweetToTootV1`: originally did nothing with the tweet's content. -/
def tweetToTootV1 (tweet : Tweet) : String :=
  tweet.text

/-- The URL-expansion step of `tweetToTootV2`: replace each shortened URL
with its expanded form, sequentially in entity list order (skipped when
`tweet.Entities` or `tweet.Entities.URLs` is nil). -/
def expandUrls (tweet : Tweet) (content : String) : String :=
  match tweet.entities with
  | none => content
  | some e =>
    match e.urls with
    | none => content
    | some urls => urls.foldl (fun c u => goReplace c u.url u.expandedURL) content

/-- The guard of the media shortlink-removal step of `tweetToTootV2`: the
source tests `tweet.Entities != nil && tweet.Entities.Medias != nil`. -/
def mediasPresent (tweet : Tweet) : Bool :=
  match tweet.entities with
  | none => false
  | some e => e.medias.isSome

/-- The media shortlink-removal step of `tweetToTootV2`. -/
def stripMediaLink (tweet : Tweet) (content : String) : String :=
  if mediasPresent tweet then endTcoShortLinkStrip content else content

/-- The retweet-link step of `tweetToTootV2`: append a link to the
original tweet when the tweet is a retweet. -/
def addRetweetLink (tweet : Tweet) (content : String) : String :=
  match tweet.retweet with
  | none => content
  | some rt =>
    content ++ "\n\n" ++ ("https://twitter.com/" ++ rt.user ++ "/status/" ++ toString rt.statusID)

/-- `tweetToTootV2`: expand shortened URLs, then (when media is attached)
remove the trailing t.co shortlink, then append a retweet link. -/
def tweetToTootV2 (tweet : Tweet) : String :=
  addRetweetLink tweet (stripMediaLink tweet (expandUrls tweet tweet.text))

/-- `findMatchingStatus`: scan the statuses in order; for each status,
normalize its content and try the transformers (V2 first, then V1); stop
at the first (status, transformer) pair whose Levenshtein distance is
below the tolerance.  When no pair qualifies, the result is no match with
distance 0. -/
def findMatchingStatus : List Status → Tweet → Option Status × Nat
  | [], _ => (none, 0)
  | status :: rest, tweet =>
    if levDistance (tootToTweet status) (tweetToTootV2 tweet) < levenshteinDistanceTolerance then
      (some status, levDistance (tootToTweet status) (tweetToTootV2 tweet))
    else if levDistance (tootToTweet status) (tweetToTootV1 tweet) < levenshteinDistanceTolerance then
      (some status, levDistance (tootToTweet status) (tweetToTootV1 tweet))
    else
      findMatchingStatus rest tweet

/-- Candidate selection loop of `syncTwitter`: walk the archive in its
given order, stop at the first tweet whose id is below `minTweetID`, skip
replies and tweets whose text ends with `"@"`. -/
def tweetCandidates : List Tweet → Int → List Tweet
  | [], _ => []
  | tweet :: rest, minTweetID =>
    if tweet.id < minTweetID then []
    else if tweet.reply.isSome || goHasSuffix tweet.text "@" then tweetCandidates rest minTweetID
    else tweet :: tweetCandidates rest minTweetID

/-- Boundary-detection loop of `syncTwitter`: accumulate candidates with
no matching status; stop at the first candidate that matches. -/
def tweetsToSync (statuses : List Status) : List Tweet → List Tweet
  | [] => []
  | tweet :: rest =>
    if ((findMatchingStatus statuses tweet).1).isSome then []
    else tweet :: tweetsToSync statuses rest

/-- Publishing loop of `syncTwitter`: walk the (already reversed) list,
checking the per-run cap before each publish. -/
def publishLoop (maxTweetsToSync : Int) : List Tweet → Int → List Tweet
  | [], _ => []
  | tweet :: rest, tweetsSynced =>
    if maxTweetsToSync ≤ tweetsSynced then []
    else tweet :: publishLoop maxTweetsToSync rest (tweetsSynced + 1)

/-- The pure planning core of `syncTwitter`: the sequence of tweets handed
to `syncTweet`, in order — candidates are matched newest-first, the
unmatched prefix is reversed to oldest-first and capped by
`maxTweetsToSync`. -/
def plan (allTweets : List Tweet) (statuses : List Status) (minTweetID maxTweetsToSync : Int) : List Tweet :=
  publishLoop maxTweetsToSync ((tweetsToSync statuses (tweetCandidates allTweets minTweetID)).reverse) 0

/-- The `mastodon.Toot` that `syncTweet` posts for a tweet: the uploaded
media ids and the transformer V1 text. -/
def syncTweetToot (tweet : Tweet) (attachmentIDs : List String) : Toot :=
  { mediaIDs := attachmentIDs, status := tweetToTootV1 tweet }

/-- A status matches a tweet when some transformer output (V2 or V1) is
within the tolerance of the normalized status content. -/
def statusMatches (status : Status) (tweet : Tweet) : Bool :=
  decide (levDistance (tootToTweet status) (tweetToTootV2 tweet) < levenshteinDistanceTolerance) ||
    decide (levDistance (tootToTweet status) (tweetToTootV1 tweet) < levenshteinDistanceTolerance)

/-! ### Helper lemmas: `replaceCore` -/

theorem replaceGo_fuel_irrel (old new : List Char) :
    ∀ (f₁ f₂ : Nat) (l : List Char), l.length ≤ f₁ → l.length ≤ f₂ →
      replaceGo old new f₁ l = replaceGo old new f₂ l := by
  intro f₁
  induction f₁ with
  | zero =>
    intro f₂ l h₁ _
    have : l = [] := List.eq_nil_of_length_eq_zero (Nat.le_zero.mp h₁)
    subst this
    cases f₂ <;> rfl
  | succ n ih =>
    intro f₂ l h₁ h₂
    cases l with
    | nil => cases f₂ <;> rfl
    | cons c rest =>
      cases f₂ with
      | zero => exact absurd h₂ (by simp)
      | succ m =>
        simp only [replaceGo]
        have hr : rest.length ≤ n := by simpa using h₁
        have hr' : rest.length ≤ m := by simpa using h₂
        by_cases hp : old.isPrefixOf (c :: rest)
        · rw [if_pos hp, if_pos hp]
          have hd : (rest.drop (old.length - 1)).length ≤ rest.length := by
            simp [List.length_drop]
          rw [ih m (rest.drop (old.length - 1)) (le_trans hd hr) (le_trans hd hr')]
        · rw [if_neg hp, if_neg hp, ih m rest hr hr']

theorem replaceCore_nil (old new : List Char) : replaceCore old new [] = [] := rfl

theorem replaceCore_cons (old new : List Char) (c : Char) (rest : List Char) :
    replaceCore old new (c :: rest) =
      if old.isPrefixOf (c :: rest) then
        new ++ replaceCore old new (rest.drop (old.length - 1))
      else
        c :: replaceCore old new rest := by
  unfold replaceCore
  simp only [List.length_cons, replaceGo]
  by_cases hp : old.isPrefixOf (c :: rest)
  · rw [if_pos hp, if_pos hp]
    rw [replaceGo_fuel_irrel old new rest.length (rest.drop (old.length - 1)).length
      (rest.drop (old.length - 1)) (by simp [List.length_drop]) le_rfl]
  · rw [if_neg hp, if_neg hp]

/-! ### Helper lemmas: the planner -/

theorem tweetsToSync_eq_takeWhile (statuses : List Status) :
    ∀ cs : List Tweet,
      tweetsToSync statuses cs =
        cs.takeWhile (fun t => ((findMatchingStatus statuses t).1).isNone) := by
  intro cs
  induction cs with
  | nil => rfl
  | cons t rest ih =>
    cases h : (findMatchingStatus statuses t).1 with
    | none => simp [tweetsToSync, List.takeWhile_cons, h, ih]
    | some s => simp [tweetsToSync, List.takeWhile_cons, h]

theorem publishLoop_eq_take (m : Int) :
    ∀ (l : List Tweet) (k : Int), publishLoop m l k = l.take (m - k).toNat := by
  intro l
  induction l with
  | nil => intro k; simp [publishLoop]
  | cons t rest ih =>
    intro k
    by_cases h : m ≤ k
    · have : (m - k).toNat = 0 := by omega
      simp [publishLoop, h, this]
    · have h1 : (m - k).toNat = (m - (k + 1)).toNat + 1 := by omega
      simp only [publishLoop, h, if_false, h1, List.take_succ_cons, ih (k + 1)]

theorem plan_eq_take (allTweets : List Tweet) (statuses : List Status) (minTweetID maxTweetsToSync : Int) :
    plan allTweets statuses minTweetID maxTweetsToSync =
      ((tweetCandidates allTweets minTweetID).takeWhile
        (fun t => ((findMatchingStatus statuses t).1).isNone)).reverse.take maxTweetsToSync.toNat := by
  unfold plan
  rw [publishLoop_eq_take, tweetsToSync_eq_takeWhile]
  norm_num

theorem tweetCandidates_eq (allTweets : List Tweet) (minTweetID : Int) :
    tweetCandidates allTweets minTweetID =
      (allTweets.takeWhile (fun t => !decide (t.id < minTweetID))).filter
        (fun t => t.reply.isNone && !(goHasSuffix t.text "@")) := by
  induction allTweets with
  | nil => rfl
  | cons t rest ih =>
    by_cases hid : t.id < minTweetID
    · simp [tweetCandidates, hid, List.takeWhile_cons]
    · by_cases hskip : t.reply.isSome || goHasSuffix t.text "@"
      · have hpred : (t.reply.isNone && !(goHasSuffix t.text "@")) = false := by
          cases h1 : t.reply.isSome <;> cases h2 : goHasSuffix t.text "@" <;>
            simp_all [Option.isNone_iff_eq_none, Option.isSome_iff_exists]
        simp [tweetCandidates, hid, hskip, List.takeWhile_cons, List.filter_cons, hpred, ih]
      · have hpred : (t.reply.isNone && !(goHasSuffix t.text "@")) = true := by
          cases h1 : t.reply.isSome <;> cases h2 : goHasSuffix t.text "@" <;>
            simp_all [Option.isNone_iff_eq_none, Option.isSome_iff_exists]
        simp [tweetCandidates, hid, hskip, List.takeWhile_cons, List.filter_cons, hpred, ih]

/-! ### Helper lemmas: the matcher -/

theorem findMatchingStatus_fst (statuses : List Status) (tweet : Tweet) :
    (findMatchingStatus statuses tweet).1 = statuses.find? (fun s => statusMatches s tweet) := by
  induction statuses with
  | nil => rfl
  | cons s rest ih =>
    by_cases h2 : levDistance (tootToTweet s) (tweetToTootV2 tweet) < levenshteinDistanceTolerance
    · simp [findMatchingStatus, statusMatches, h2, List.find?_cons]
    · by_cases h1 : levDistance (tootToTweet s) (tweetToTootV1 tweet) < levenshteinDistanceTolerance
      · simp [findMatchingStatus, statusMatches, h2, h1, List.find?_cons]
      · simp [findMatchingStatus, statusMatches, h2, h1, List.find?_cons, ih]

theorem findMatchingStatus_snd (statuses : List Status) (tweet : Tweet) (s : Status) :
    (findMatchingStatus statuses tweet).1 = some s →
      (findMatchingStatus statuses tweet).2 =
        if levDistance (tootToTweet s) (tweetToTootV2 tweet) < levenshteinDistanceTolerance then
          levDistance (tootToTweet s) (tweetToTootV2 tweet)
        else
          levDistance (tootToTweet s) (tweetToTootV1 tweet) := by
  induction statuses with
  | nil => intro h; simp [findMatchingStatus] at h
  | cons s0 rest ih =>
    intro h
    by_cases h2 : levDistance (tootToTweet s0) (tweetToTootV2 tweet) < levenshteinDistanceTolerance
    · simp only [findMatchingStatus, h2, if_true] at h ⊢
      obtain rfl : s0 = s := by simpa using h
      simp [h2]
    · by_cases h1 : levDistance (tootToTweet s0) (tweetToTootV1 tweet) < levenshteinDistanceTolerance
      · simp only [findMatchingStatus, h2, if_false, h1, if_true] at h ⊢
        obtain rfl : s0 = s := by simpa using h
        simp [h2]
      · simp only [findMatchingStatus, h2, if_false, h1] at h ⊢
        exact ih h

theorem findMatchingStatus_of_no_match (statuses : List Status) (tweet : Tweet) :
    (∀ s ∈ statuses, statusMatches s tweet = false) →
      findMatchingStatus statuses tweet = (none, 0) := by
  induction statuses with
  | nil => intro _; rfl
  | cons s rest ih =>
    intro h
    have hs := h s (List.mem_cons_self s rest)
    have h2 : ¬ levDistance (tootToTweet s) (tweetToTootV2 tweet) < levenshteinDistanceTolerance := by
      intro hc
      simp [statusMatches, hc] at hs
    have h1 : ¬ levDistance (tootToTweet s) (tweetToTootV1 tweet) < levenshteinDistanceTolerance := by
      intro hc
      simp [statusMatches, hc] at hs
    simp only [findMatchingStatus, h2, if_false, h1]
    exact ih (fun s' hs' => h s' (List.mem_cons_of_mem s hs'))

/-! ### Helper lemmas: round trip through the destination platform's
rendering -/

theorem isPrefixOf_append_self (l t : List Char) : l.isPrefixOf (l ++ t) = true := by
  induction l with
  | nil => simp [List.isPrefixOf]
  | cons c rest ih => simp [List.isPrefixOf, ih]

theorem pTagL_not_prefix {c : Char} (hc : c ≠ '<') (l : List Char) :
    pTagL.isPrefixOf (c :: l) = false := by
  have : ('<' == c) = false := beq_eq_false_iff_ne.mpr (Ne.symm hc)
  simp [pTagL, List.isPrefixOf, this]

theorem replace_skip_pTag (p : List Char) (X : List Char) (hp : ∀ c ∈ p, c ≠ '<') :
    replaceCore pTagL nnL (p ++ X) = p ++ replaceCore pTagL nnL X := by
  induction p with
  | nil => rfl
  | cons c rest ih =>
    have hc : c ≠ '<' := hp c (List.mem_cons_self c rest)
    rw [List.cons_append, replaceCore_cons, pTagL_not_prefix hc]
    simp only [Bool.false_eq_true, if_false]
    rw [ih (fun c' hc' => hp c' (List.mem_cons_of_mem c hc'))]
    rfl

theorem replace_consume_pTag (X : List Char) :
    replaceCore pTagL nnL (pTagL ++ X) = nnL ++ replaceCore pTagL nnL X := by
  have h : pTagL ++ X = '<' :: (['/', 'p', '>', '<', 'p', '>'] ++ X) := rfl
  rw [h, replaceCore_cons]
  have hpre : pTagL.isPrefixOf ('<' :: (['/', 'p', '>', '<', 'p', '>'] ++ X)) = true := by
    rw [← h]; exact isPrefixOf_append_self pTagL X
  rw [hpre]
  simp only [if_true]
  have hdrop : (['/', 'p', '>', '<', 'p', '>'] ++ X).drop (pTagL.length - 1) = X := rfl
  rw [hdrop]

theorem replace_back : ∀ (n : Nat) (E X : List Char), E.length ≤ n → (∀ c ∈ E, c ≠ '<') →
    replaceCore pTagL nnL (replaceCore nnL pTagL E ++ X) = E ++ replaceCore pTagL nnL X := by
  intro n
  induction n with
  | zero =>
    intro E X hlen _
    have : E = [] := List.eq_nil_of_length_eq_zero (Nat.le_zero.mp hlen)
    subst this
    rfl
  | succ n ih =>
    intro E X hlen hE
    cases E with
    | nil => rfl
    | cons c rest =>
      by_cases hm : nnL.isPrefixOf (c :: rest)
      · cases rest with
        | nil => simp [nnL, List.isPrefixOf] at hm
        | cons c2 rest' =>
          obtain ⟨hc, hc2⟩ : '\n' = c ∧ '\n' = c2 := by
            simpa [nnL, List.isPrefixOf] using hm
          subst hc
          subst hc2
          rw [replaceCore_cons, if_pos hm]
          have hdrop : (('\n' :: rest').drop (nnL.length - 1)) = rest' := rfl
          rw [hdrop, List.append_assoc, replace_consume_pTag]
          have hrest' : rest'.length ≤ n := by
            simp only [List.length_cons] at hlen
            omega
          rw [ih rest' X hrest'
            (fun c' hc' => hE c' (List.mem_cons_of_mem _ (List.mem_cons_of_mem _ hc')))]
          rfl
      · rw [replaceCore_cons, if_neg hm, List.cons_append, replaceCore_cons,
          pTagL_not_prefix (hE c (List.mem_cons_self c rest))]
        simp only [Bool.false_eq_true, if_false]
        have hrest : rest.length ≤ n := by
          simp only [List.length_cons] at hlen
          omega
        rw [ih rest X hrest (fun c' hc' => hE c' (List.mem_cons_of_mem c hc'))]
        rfl

theorem stripAux_skip (p : List Char) (X : List Char) (hp : ∀ c ∈ p, c ≠ '<') :
    stripAux false (p ++ X) = p ++ stripAux false X := by
  induction p with
  | nil => rfl
  | cons c rest ih =>
    have hc : c ≠ '<' := hp c (List.mem_cons_self c rest)
    rw [List.cons_append]
    simp only [stripAux, if_neg hc]
    rw [ih (fun c' hc' => hp c' (List.mem_cons_of_mem c hc'))]
    rfl

theorem unescGo_fuel_irrel :
    ∀ (f₁ f₂ : Nat) (l : List Char), l.length ≤ f₁ → l.length ≤ f₂ →
      unescGo f₁ l = unescGo f₂ l := by
  intro f₁
  induction f₁ with
  | zero =>
    intro f₂ l h₁ _
    have : l = [] := List.eq_nil_of_length_eq_zero (Nat.le_zero.mp h₁)
    subst this
    cases f₂ <;> rfl
  | succ n ih =>
    intro f₂ l h₁ h₂
    cases l with
    | nil => cases f₂ <;> rfl
    | cons c rest =>
      cases f₂ with
      | zero => exact absurd h₂ (by simp)
      | succ m =>
        simp only [unescGo]
        have hr : rest.length ≤ n := by simpa using h₁
        have hr' : rest.length ≤ m := by simpa using h₂
        by_cases hc : c = '&'
        · rw [if_pos hc, if_pos hc]
          cases he : entityStep rest with
          | none =>
            show c :: unescGo n rest = c :: unescGo m rest
            rw [ih m rest hr hr']
          | some dk =>
            obtain ⟨d, k⟩ := dk
            have hd : (rest.drop k).length ≤ rest.length := by simp [List.length_drop]
            show d :: unescGo n (rest.drop k) = d :: unescGo m (rest.drop k)
            rw [ih m (rest.drop k) (le_trans hd hr) (le_trans hd hr')]
        · rw [if_neg hc, if_neg hc, ih m rest hr hr']

theorem unescapeL_nil : unescapeL [] = [] := rfl

theorem unescapeL_cons (c : Char) (rest : List Char) :
    unescapeL (c :: rest) =
      if c = '&' then
        match entityStep rest with
        | some (d, k) => d :: unescapeL (rest.drop k)
        | none => c :: unescapeL rest
      else c :: unescapeL rest := by
  unfold unescapeL
  simp only [List.length_cons, unescGo]
  by_cases hc : c = '&'
  · rw [if_pos hc, if_pos hc]
    cases he : entityStep rest with
    | none => rfl
    | some dk =>
      obtain ⟨d, k⟩ := dk
      show d :: unescGo rest.length (rest.drop k) = d :: unescGo (rest.drop k).length (rest.drop k)
      rw [unescGo_fuel_irrel rest.length (rest.drop k).length (rest.drop k)
        (by simp [List.length_drop]) le_rfl]
  · rw [if_neg hc, if_neg hc]

theorem unescapeL_cons_ne (c : Char) (l : List Char) (hc : c ≠ '&') :
    unescapeL (c :: l) = c :: unescapeL l := by
  rw [unescapeL_cons, if_neg hc]

theorem unescape_escape_append : ∀ (l X : List Char),
    unescapeL (escapeL l ++ X) = l ++ unescapeL X := by
  intro l
  induction l with
  | nil => intro X; rfl
  | cons c rest ih =>
    intro X
    have hsplit : escapeL (c :: rest) ++ X = escapeChar c ++ (escapeL rest ++ X) := by
      show (escapeChar c ++ escapeL rest) ++ X = _
      rw [List.append_assoc]
    rw [hsplit]
    by_cases h1 : c = '&'
    · subst h1
      rw [show escapeChar '&' = ['&', 'a', 'm', 'p', ';'] from rfl]
      show unescapeL ('&' :: 'a' :: 'm' :: 'p' :: ';' :: (escapeL rest ++ X)) = _
      rw [unescapeL_cons, if_pos rfl]
      show '&' :: unescapeL (escapeL rest ++ X) = '&' :: (rest ++ unescapeL X)
      rw [ih X]
    · by_cases h2 : c = '<'
      · subst h2
        rw [show escapeChar '<' = ['&', 'l', 't', ';'] from rfl]
        show unescapeL ('&' :: 'l' :: 't' :: ';' :: (escapeL rest ++ X)) = _
        rw [unescapeL_cons, if_pos rfl]
        show '<' :: unescapeL (escapeL rest ++ X) = '<' :: (rest ++ unescapeL X)
        rw [ih X]
      · by_cases h3 : c = '>'
        · subst h3
          rw [show escapeChar '>' = ['&', 'g', 't', ';'] from rfl]
          show unescapeL ('&' :: 'g' :: 't' :: ';' :: (escapeL rest ++ X)) = _
          rw [unescapeL_cons, if_pos rfl]
          show '>' :: unescapeL (escapeL rest ++ X) = '>' :: (rest ++ unescapeL X)
          rw [ih X]
        · by_cases h4 : c = '"'
          · subst h4
            rw [show escapeChar '"' = ['&', 'q', 'u', 'o', 't', ';'] from rfl]
            show unescapeL ('&' :: 'q' :: 'u' :: 'o' :: 't' :: ';' :: (escapeL rest ++ X)) = _
            rw [unescapeL_cons, if_pos rfl]
            show '"' :: unescapeL (escapeL rest ++ X) = '"' :: (rest ++ unescapeL X)
            rw [ih X]
          · by_cases h5 : c = Char.ofNat 39
            · subst h5
              rw [show escapeChar (Char.ofNat 39) = ['&', '#', '3', '9', ';'] from rfl]
              show unescapeL ('&' :: '#' :: '3' :: '9' :: ';' :: (escapeL rest ++ X)) = _
              rw [unescapeL_cons, if_pos rfl]
              show Char.ofNat 39 :: unescapeL (escapeL rest ++ X) =
                Char.ofNat 39 :: (rest ++ unescapeL X)
              rw [ih X]
            · have hch : escapeChar c = [c] := by
                unfold escapeChar
                rw [if_neg h1, if_neg h2, if_neg h3, if_neg h4, if_neg h5]
              rw [hch]
              show unescapeL (c :: (escapeL rest ++ X)) = c :: (rest ++ unescapeL X)
              rw [unescapeL_cons_ne c _ h1, ih X]

theorem escapeChar_ne_lt (c : Char) : ∀ d ∈ escapeChar c, d ≠ '<' := by
  intro d hd
  by_cases h1 : c = '&'
  · subst h1
    rw [show escapeChar '&' = ['&', 'a', 'm', 'p', ';'] from rfl] at hd
    simp at hd
    rcases hd with rfl | rfl | rfl | rfl | rfl <;> decide
  · by_cases h2 : c = '<'
    · subst h2
      rw [show escapeChar '<' = ['&', 'l', 't', ';'] from rfl] at hd
      simp at hd
      rcases hd with rfl | rfl | rfl | rfl <;> decide
    · by_cases h3 : c = '>'
      · subst h3
        rw [show escapeChar '>' = ['&', 'g', 't', ';'] from rfl] at hd
        simp at hd
        rcases hd with rfl | rfl | rfl | rfl <;> decide
      · by_cases h4 : c = '"'
        · subst h4
          rw [show escapeChar '"' = ['&', 'q', 'u', 'o', 't', ';'] from rfl] at hd
          simp at hd
          rcases hd with rfl | rfl | rfl | rfl | rfl | rfl <;> decide
        · by_cases h5 : c = Char.ofNat 39
          · subst h5
            rw [show escapeChar (Char.ofNat 39) = ['&', '#', '3', '9', ';'] from rfl] at hd
            simp at hd
            rcases hd with rfl | rfl | rfl | rfl | rfl <;> decide
          · have hch : escapeChar c = [c] := by
              unfold escapeChar
              rw [if_neg h1, if_neg h2, if_neg h3, if_neg h4, if_neg h5]
            rw [hch] at hd
            simp at hd
            subst hd
            exact h2

theorem escapeL_ne_lt (l : List Char) : ∀ d ∈ escapeL l, d ≠ '<' := by
  induction l with
  | nil => intro d hd; simp [escapeL] at hd
  | cons c rest ih =>
    intro d hd
    have : d ∈ escapeChar c ++ escapeL rest := hd
    rcases List.mem_append.mp this with h | h
    · exact escapeChar_ne_lt c d h
    · exact ih d h

/-- The rendered form of a string, normalized by `tootToTweet`, gives back
the string exactly: the three normalization steps invert the modelled
escaping and paragraph markup of the destination platform. -/
theorem tootToTweet_render (i : String) (s : String) :
    tootToTweet ⟨i, render s⟩ = s := by
  show unescapeStr (stripTagsStr (goReplace (render s) "</p><p>" "\n\n")) = s
  have hgo : goReplace (render s) "</p><p>" "\n\n" =
      String.mk (replaceCore pTagL nnL ((render s).toList)) := by
    rw [goReplace, if_neg (by decide)]
    rfl
  rw [hgo]
  have htl : (render s).toList =
      '<' :: 'p' :: '>' :: (replaceCore nnL pTagL (escapeL s.toList) ++ ['<', '/', 'p', '>']) := rfl
  rw [htl]
  have hskip1 : replaceCore pTagL nnL
      ('<' :: 'p' :: '>' :: (replaceCore nnL pTagL (escapeL s.toList) ++ ['<', '/', 'p', '>'])) =
      '<' :: 'p' :: '>' :: replaceCore pTagL nnL
        (replaceCore nnL pTagL (escapeL s.toList) ++ ['<', '/', 'p', '>']) := by
    rw [replaceCore_cons]
    have h1 : pTagL.isPrefixOf ('<' :: 'p' :: '>' ::
        (replaceCore nnL pTagL (escapeL s.toList) ++ ['<', '/', 'p', '>'])) = false := by
      simp [pTagL, List.isPrefixOf]
    rw [h1]
    simp only [Bool.false_eq_true, if_false]
    rw [replaceCore_cons, pTagL_not_prefix (by decide)]
    simp only [Bool.false_eq_true, if_false]
    rw [replaceCore_cons, pTagL_not_prefix (by decide)]
    simp only [Bool.false_eq_true, if_false]
  rw [hskip1]
  rw [replace_back (escapeL s.toList).length (escapeL s.toList) ['<', '/', 'p', '>'] le_rfl
    (escapeL_ne_lt s.toList)]
  have hend : replaceCore pTagL nnL ['<', '/', 'p', '>'] = ['<', '/', 'p', '>'] := by decide
  rw [hend]
  have hstrip : stripAux false ('<' :: 'p' :: '>' :: (escapeL s.toList ++ ['<', '/', 'p', '>'])) =
      escapeL s.toList := by
    show stripAux true ('p' :: '>' :: (escapeL s.toList ++ ['<', '/', 'p', '>'])) = _
    show stripAux true ('>' :: (escapeL s.toList ++ ['<', '/', 'p', '>'])) = _
    show stripAux false (escapeL s.toList ++ ['<', '/', 'p', '>']) = _
    rw [stripAux_skip (escapeL s.toList) ['<', '/', 'p', '>'] (escapeL_ne_lt s.toList)]
    have : stripAux false ['<', '/', 'p', '>'] = [] := by decide
    rw [this, List.append_nil]
  show unescapeStr (String.mk (stripAux false
    ('<' :: 'p' :: '>' :: (escapeL s.toList ++ ['<', '/', 'p', '>'])))) = s
  rw [hstrip]
  show String.mk (unescapeL (escapeL s.toList)) = s
  have : unescapeL (escapeL s.toList) = s.toList := by
    have h := unescape_escape_append s.toList []
    rw [List.append_nil] at h
    rw [h, show unescapeL [] = [] from rfl, List.append_nil]
  rw [this]
  rfl

/-! ### Concrete demonstration inputs -/

/-- A plain tweet with only an id and a text. -/
def mkTweet (id : Int) (text : String) : Tweet :=
  ⟨0, none, 0, id, none, none, 0, text⟩

def demoT50 : Tweet := mkTweet 50 "eeeeeeeeeeee"

def demoT40 : Tweet := mkTweet 40 "dddddddddddd"

def demoT30 : Tweet := mkTweet 30 "cccccccccccc"

def demoT20 : Tweet := mkTweet 20 "bbbbbbbbbbbb"

def demoT10 : Tweet := mkTweet 10 "aaaaaaaaaaaa"

/-- Archive of five tweets sorted by descending id. -/
def demoArchive : List Tweet :=
  [demoT50, demoT40, demoT30, demoT20, demoT10]

/-- A published status whose content equals the text of `demoT30`. -/
def demoStatus30 : Status := ⟨"st30", "cccccccccccc"⟩

def demoMatchTweet : Tweet := mkTweet 1 "hello world"

def demoStatusA : Status := ⟨"a", "hello world"⟩

def demoStatusB : Status := ⟨"b", "hello world"⟩

/-- A tweet whose `entities.medias` slice is present but empty, with a
trailing t.co shortlink in its text. -/
def cexEmptyMediasTweet : Tweet :=
  ⟨0, some ⟨some [], none, none⟩, 0, 1, none, none, 0, "hi there https://t.co/abcde"⟩

/-- Number of media entities of a tweet. -/
def mediaEntityCount (t : Tweet) : Nat :=
  match t.entities with
  | none => 0
  | some e => (e.medias.getD []).length

/-- The media test tweet of the source's test suite. -/
def demoMediaTweet : Tweet :=
  ⟨0, some ⟨some [⟨1, "photo", "https://media1"⟩], none, none⟩, 0, 1, none, none, 0,
    "A tweet containing media and an automatic link https://t.co/YuY4wvg3uM"⟩

/-- The same text with no entities at all. -/
def demoNoMediaTweet : Tweet :=
  ⟨0, none, 0, 1, none, none, 0,
    "A tweet containing media and an automatic link https://t.co/YuY4wvg3uM"⟩

/-- A retweet with origin user and origin status id. -/
def demoRetweetTweet : Tweet :=
  ⟨0, none, 0, 1, none, some ⟨1234567890, "user", 7⟩, 0, "RT @user A truncated tweet"⟩

/-! ### Claim theorems -/

/-- C1: `findMatchingStatus` declares a match exactly when some
(status, transformer) pair has Levenshtein distance strictly below the
tolerance 10 between the normalized status content and the transformer
output; statuses are scanned in the given order and the first matching
status is returned (`find?`), with transformer V2 tried before V1 (the
reported distance is the V2 distance whenever it is below the tolerance,
and the V1 distance otherwise). -/
theorem findMatchingStatus_first_match_spec :
    ∀ (statuses : List Status) (tweet : Tweet),
      ((findMatchingStatus statuses tweet).1 =
          statuses.find? (fun s => statusMatches s tweet))
      ∧ (((findMatchingStatus statuses tweet).1).isSome ↔
          ∃ s ∈ statuses, statusMatches s tweet = true)
      ∧ (∀ s : Status, (findMatchingStatus statuses tweet).1 = some s →
          (findMatchingStatus statuses tweet).2 =
            if levDistance (tootToTweet s) (tweetToTootV2 tweet) < levenshteinDistanceTolerance
            then levDistance (tootToTweet s) (tweetToTootV2 tweet)
            else levDistance (tootToTweet s) (tweetToTootV1 tweet)) := by
  intro statuses tweet
  refine ⟨findMatchingStatus_fst statuses tweet, ?_, findMatchingStatus_snd statuses tweet⟩
  rw [findMatchingStatus_fst]
  simp [List.find?_isSome]

/-- Witness for C1 at a concrete input: with two equally matching
statuses the first is returned, with the V2 distance 0. -/
theorem findMatchingStatus_first_match_spec_witness :
    (findMatchingStatus [demoStatusA, demoStatusB] demoMatchTweet).1 = some demoStatusA ∧
    (findMatchingStatus [demoStatusA, demoStatusB] demoMatchTweet).2 = 0 := by
  have h := findMatchingStatus_first_match_spec [demoStatusA, demoStatusB] demoMatchTweet
  refine ⟨?_, ?_⟩
  · rw [h.1]; rfl
  · have h2 := h.2.2 demoStatusA (by rw [h.1]; rfl)
    rw [h2]; rfl

/-- C2: the planner walks candidates newest-first, stops at the first
candidate that matches a published status (`takeWhile` of the no-match
predicate), reverses the accumulated unmatched candidates to oldest-first
order and caps them at `maxTweetsToSync`; on the concrete archive with ids
[50,40,30,20,10], floor 25 and a status matching id 30, the plan is
exactly [40,50], truncated to the cap. -/
theorem syncTwitter_plan_spec :
    (∀ (allTweets : List Tweet) (statuses : List Status) (minTweetID maxTweetsToSync : Int),
      plan allTweets statuses minTweetID maxTweetsToSync =
        ((tweetCandidates allTweets minTweetID).takeWhile
          (fun t => ((findMatchingStatus statuses t).1).isNone)).reverse.take
            maxTweetsToSync.toNat)
    ∧ plan demoArchive [demoStatus30] 25 10 = [demoT40, demoT50]
    ∧ plan demoArchive [demoStatus30] 25 1 = [demoT40] := by
  refine ⟨plan_eq_take, ?_, ?_⟩ <;> rfl

/-- C3: candidate scanning takes the archive prefix up to the first post
with id below the floor, in order, and filters out replies and texts
ending in `"@"`; consequently no reply and no `"@"`-ending post is ever in
any plan. -/
theorem candidate_filter_spec :
    (∀ (allTweets : List Tweet) (minTweetID : Int),
      tweetCandidates allTweets minTweetID =
        (allTweets.takeWhile (fun t => !decide (t.id < minTweetID))).filter
          (fun t => t.reply.isNone && !(goHasSuffix t.text "@")))
    ∧ (∀ (allTweets : List Tweet) (statuses : List Status) (minTweetID maxTweetsToSync : Int)
        (t : Tweet), t ∈ plan allTweets statuses minTweetID maxTweetsToSync →
          t.reply = none ∧ goHasSuffix t.text "@" = false) := by
  refine ⟨tweetCandidates_eq, ?_⟩
  intro allTweets statuses minTweetID maxTweetsToSync t ht
  rw [plan_eq_take allTweets statuses minTweetID maxTweetsToSync] at ht
  have h1 := List.mem_of_mem_take ht
  have h2 := List.mem_reverse.mp h1
  have h3 : t ∈ tweetCandidates allTweets minTweetID :=
    (List.takeWhile_sublist _).subset h2
  rw [tweetCandidates_eq] at h3
  have h4 := (List.mem_filter.mp h3).2
  have h5 : t.reply.isNone = true ∧ (goHasSuffix t.text "@") = false := by
    cases hr : t.reply.isNone <;> cases he : goHasSuffix t.text "@" <;> simp_all
  exact ⟨Option.isNone_iff_eq_none.mp h5.1, h5.2⟩

/-- Witness for C3 at a concrete input: a member of a concrete plan is
reply-free and does not end in an `"@"`. -/
theorem candidate_filter_spec_witness :
    demoT40.reply = none ∧ goHasSuffix demoT40.text "@" = false :=
  candidate_filter_spec.2 demoArchive [demoStatus30] 25 10 demoT40 (by decide)

/-- C4 counterexample: a tweet whose `entities.medias` slice is present
but empty has zero media entities, yet the trailing-shortlink removal
fires on it, contradicting the claim's "if and only if at least one media
entity is present ... identical text without media entities is left
untouched". -/
theorem tweetToTootV2_media_strip_counterexample :
    mediaEntityCount cexEmptyMediasTweet = 0 ∧
    cexEmptyMediasTweet.text = "hi there https://t.co/abcde" ∧
    tweetToTootV2 cexEmptyMediasTweet = "hi there" ∧
    tweetToTootV2 cexEmptyMediasTweet ≠ cexEmptyMediasTweet.text := by
  refine ⟨rfl, rfl, rfl, ?_⟩
  decide

/-- C4 amended: the removal of a trailing automatic shortlink fires if and
only if the media entity list is present (non-nil, `mediasPresent`), even
when it is empty, and runs strictly after URL-entity expansion; when the
media list is absent the URL-expanded text is passed through untouched. -/
theorem tweetToTootV2_media_strip_amended :
    ∀ t : Tweet, t.retweet = none →
      tweetToTootV2 t =
        (if mediasPresent t then endTcoShortLinkStrip (expandUrls t t.text)
         else expandUrls t t.text) := by
  intro t hrt
  unfold tweetToTootV2 addRetweetLink stripMediaLink
  rw [hrt]

/-- Witness for C4 amended at the source's test inputs: with a photo
entity the trailing shortlink is removed; the identical text without any
entities is left untouched. -/
theorem tweetToTootV2_media_strip_amended_witness :
    tweetToTootV2 demoMediaTweet = "A tweet containing media and an automatic link" ∧
    tweetToTootV2 demoNoMediaTweet =
      "A tweet containing media and an automatic link https://t.co/YuY4wvg3uM" := by
  constructor
  · rw [tweetToTootV2_media_strip_amended demoMediaTweet rfl]; rfl
  · rw [tweetToTootV2_media_strip_amended demoNoMediaTweet rfl]; rfl

/-- C5: normalizing the rendered form of a transformed post reproduces the
matcher's comparison basis (the V2 transform) exactly, and applying the
render-then-normalize pipeline a second time yields the same string —
round-trip stability / idempotence under repeated application. -/
theorem transform_normalize_roundtrip_idem :
    ∀ t : Tweet,
      tootToTweet ⟨"", render (tweetToTootV2 t)⟩ = tweetToTootV2 t ∧
      tootToTweet ⟨"", render (tootToTweet ⟨"", render (tweetToTootV2 t)⟩)⟩ =
        tootToTweet ⟨"", render (tweetToTootV2 t)⟩ := by
  intro t
  constructor
  · exact tootToTweet_render "" (tweetToTootV2 t)
  · rw [tootToTweet_render, tootToTweet_render]

/-- C6: the normalizer replaces every `"</p><p>"` with two newlines, then
strips remaining tags, then decodes character entities, in that order
(entities are decoded after stripping, so `"&lt;p&gt;"` survives as
literal text), and it is total — on malformed markup such as an unclosed
tag it strips best-effort and returns a value. -/
theorem tootToTweet_pipeline_spec :
    (∀ status : Status,
      tootToTweet status =
        unescapeStr (stripTagsStr (goReplace status.content "</p><p>" "\n\n")))
    ∧ tootToTweet ⟨"", "<p>first</p><p>second &amp; third</p>"⟩ = "first\n\nsecond & third"
    ∧ tootToTweet ⟨"", "&lt;p&gt;kept"⟩ = "<p>kept"
    ∧ tootToTweet ⟨"", "broken <unclosed"⟩ = "broken " := by
  refine ⟨fun _ => rfl, ?_, ?_, ?_⟩ <;> rfl

/-- C7: when no (status, transformer) pair is within the tolerance,
`findMatchingStatus` signals no match and reports the distance as 0. -/
theorem findMatchingStatus_no_match_spec :
    ∀ (statuses : List Status) (tweet : Tweet),
      (∀ s ∈ statuses, statusMatches s tweet = false) →
      findMatchingStatus statuses tweet = (none, 0) :=
  findMatchingStatus_of_no_match

/-- Witness for C7 at a concrete input: a status at distance 12 from the
tweet under both transformers yields no match and distance 0. -/
theorem findMatchingStatus_no_match_spec_witness :
    findMatchingStatus [demoStatus30] demoT50 = (none, 0) :=
  findMatchingStatus_no_match_spec [demoStatus30] demoT50 (by decide)

/-- C8: for a tweet with retweet info (origin user `u`, origin id `n`),
transformer V2 appends to the otherwise-transformed text exactly two
newlines followed by `https://twitter.com/u/status/n`. -/
theorem tweetToTootV2_retweet_link_spec :
    ∀ (t : Tweet) (rt : TweetRetweet), t.retweet = some rt →
      tweetToTootV2 t =
        stripMediaLink t (expandUrls t t.text) ++ "\n\n" ++
          ("https://twitter.com/" ++ rt.user ++ "/status/" ++ toString rt.statusID) := by
  intro t rt hrt
  unfold tweetToTootV2 addRetweetLink
  rw [hrt]

/-- Witness for C8 at a concrete input: origin user `"user"` and origin id
1234567890 give exactly the canonical link suffix. -/
theorem tweetToTootV2_retweet_link_spec_witness :
    tweetToTootV2 demoRetweetTweet =
      "RT @user A truncated tweet\n\nhttps://twitter.com/user/status/1234567890" := by
  rw [tweetToTootV2_retweet_link_spec demoRetweetTweet ⟨1234567890, "user", 7⟩ rfl]
  rfl

/-- C9: the toot handed to the publisher carries exactly the transformer
V1 output — the raw archived text — not the V2 output used for matching;
on a retweet the two differ, and the published text is still the V1
form. -/
theorem syncTweet_publishes_v1_spec :
    (∀ (t : Tweet) (attachmentIDs : List String),
      (syncTweetToot t attachmentIDs).status = tweetToTootV1 t ∧ tweetToTootV1 t = t.text)
    ∧ tweetToTootV1 demoRetweetTweet ≠ tweetToTootV2 demoRetweetTweet
    ∧ (syncTweetToot demoRetweetTweet []).status ≠ tweetToTootV2 demoRetweetTweet := by
  refine ⟨fun t ids => ⟨rfl, rfl⟩, ?_, ?_⟩ <;> decide

/-- C10: the number of published posts is bounded by `max maxTweetsToSync
0` — the cap is checked before each publish — and a zero or negative cap
publishes nothing at all. -/
theorem plan_respects_max_to_sync :
    ∀ (allTweets : List Tweet) (statuses : List Status) (minTweetID maxTweetsToSync : Int),
      ((plan allTweets statuses minTweetID maxTweetsToSync).length : Int) ≤ max maxTweetsToSync 0
      ∧ (maxTweetsToSync ≤ 0 → plan allTweets statuses minTweetID maxTweetsToSync = []) := by
  intro allTweets statuses minTweetID maxTweetsToSync
  have h := plan_eq_take allTweets statuses minTweetID maxTweetsToSync
  constructor
  · rw [h]
    have hlen := List.length_take_le maxTweetsToSync.toNat
      (((tweetCandidates allTweets minTweetID).takeWhile
        (fun t => ((findMatchingStatus statuses t).1).isNone)).reverse)
    omega
  · intro hneg
    rw [h, Int.toNat_of_nonpos hneg, List.take_zero]

/-- Witness for C10 at a concrete input: with cap 0 the plan is empty even
though unsynced candidates exist. -/
theorem plan_respects_max_to_sync_witness :
    plan demoArchive [] 25 0 = [] ∧ tweetsToSync [] (tweetCandidates demoArchive 25) ≠ [] :=
  ⟨(plan_respects_max_to_sync demoArchive [] 25 0).2 le_rfl, by decide⟩
